import Mathlib

/-!
# Verification of receipt-helper's cost-allocation and sync logic

Shallow embedding of the cost-allocation engine
(`src/frontend/src/lib/utils.ts`), the polling version tracker
(`src/frontend/src/lib/stores/polling.svelte.ts`), the realtime throttle
(`src/frontend/src/lib/stores/realtime.svelte.ts`), the websocket reconnect
logic (`src/frontend/src/lib/websocket.ts`) and the optimistic-update failure
path of `updateAssignment` (`src/frontend/src/routes/groups/[id]/+page.svelte`).

JavaScript numbers are modelled as rationals (`ℚ`); where NaN can actually
arise (`calculateCombinedCosts`) the value type is `Option ℚ` with `none`
standing for NaN.  JavaScript objects used as string-keyed records are
modelled as insertion-ordered association lists.
-/

namespace ReceiptHelper

/-- Line item of a receipt (`ReceiptEntry` in `src/frontend/src/lib/types.ts`).
Fields never read by the functions under verification (`created_at`,
`receipt_id`) are omitted; `price` is modelled as a rational. -/
structure ReceiptEntry where
  id : Nat
  name : String
  price : ℚ
  taxable : Bool
  assigned_to : List String
deriving DecidableEq, Repr

/-- `Receipt` from `src/frontend/src/lib/types.ts` (`created_at`, `raw_data`
and `group_id` omitted: never read by the functions under verification). -/
structure Receipt where
  id : Nat
  processed : Bool
  name : String
  paid_by : Option String
  people : List String
  entries : List ReceiptEntry
deriving DecidableEq, Repr

/-- `Group` from `src/frontend/src/lib/types.ts` (`id`, `created_at`, `slug`
omitted: never read by the functions under verification). -/
structure Group where
  name : String
  people : List String
  receipts : List Receipt
deriving DecidableEq, Repr

/-- Assignment `record[k] = v` on a JavaScript object: an existing key is
updated in place, a fresh key is appended in insertion order. -/
def recordSet {α : Type} : List (String × α) → String → α → List (String × α)
  | [], k, v => [(k, v)]
  | (k', v') :: rest, k, v =>
      if k' = k then (k, v) :: rest else (k', v') :: recordSet rest k v

/-- Property read `record[k]` on a JavaScript object: `none` is `undefined`. -/
def recordGet {α : Type} : List (String × α) → String → Option α
  | [], _ => none
  | (k', v') :: rest, k => if k' = k then some v' else recordGet rest k

/-- `TAX_RATE` from `src/frontend/src/lib/utils.ts` line 7. -/
def TAX_RATE : ℚ := 0.07

/-- `calculateReceiptTotal` from `src/frontend/src/lib/utils.ts` lines 25-30. -/
def calculateReceiptTotal (receipt : Receipt) : ℚ :=
  receipt.entries.foldl
    (fun total entry =>
      total + (if entry.taxable then entry.price * (1 + TAX_RATE) else entry.price))
    0

/-- `costs[person] += v` guarded by `costs[person] !== undefined` (utils.ts
lines 46-48).  The unguarded `costs[person] += pricePerPerson` of line 42 is
also modelled by this function: there `person` ranges over `people`, whose
keys were all initialised on line 34, so the guard can never fire and the
two coincide. -/
def recordAdd (costs : List (String × ℚ)) (person : String) (v : ℚ) :
    List (String × ℚ) :=
  if (recordGet costs person).isSome then
    recordSet costs person ((recordGet costs person).getD 0 + v)
  else costs

/-- Body of the per-entry `forEach` of `calculateReceiptCosts`
(utils.ts lines 36-51). -/
def applyEntry (people : List String) (costs : List (String × ℚ))
    (entry : ReceiptEntry) : List (String × ℚ) :=
  let assignedCount := entry.assigned_to.length
  let price := if entry.taxable then entry.price * (1 + TAX_RATE) else entry.price
  if assignedCount = 0 then
    let pricePerPerson := price / (people.length : ℚ)
    people.foldl (fun c person => recordAdd c person pricePerPerson) costs
  else
    let pricePerPerson := price / (assignedCount : ℚ)
    entry.assigned_to.foldl (fun c person => recordAdd c person pricePerPerson) costs

/-- `calculateReceiptCosts` from `src/frontend/src/lib/utils.ts` lines 32-54. -/
def calculateReceiptCosts (receipt : Receipt) (people : List String) :
    List (String × ℚ) :=
  let costs := people.foldl (fun c person => recordSet c person 0) []
  receipt.entries.foldl (applyEntry people) costs

/-- `Object.values(costs).reduce((a, b) => a + b, 0)`: the sum of the values
of a record (as in `+page.svelte`, receipt total display). -/
def sumValues (costs : List (String × ℚ)) : ℚ := (costs.map Prod.snd).sum

/-- JavaScript `+` on numbers where `none` stands for NaN
(NaN propagates through every arithmetic operation). -/
def jsAdd : Option ℚ → Option ℚ → Option ℚ
  | some a, some b => some (a + b)
  | _, _ => none

/-- JavaScript `-` on numbers where `none` stands for NaN. -/
def jsSub : Option ℚ → Option ℚ → Option ℚ
  | some a, some b => some (a - b)
  | _, _ => none

/-- Reading a record slot as an arithmetic operand: a missing key reads as
`undefined`, which behaves exactly like NaN inside `+` and `-`. -/
def slotValue : Option (Option ℚ) → Option ℚ
  | some v => v
  | none => none

/-- Body of `receipt.people.forEach` in `calculateCombinedCosts`
(utils.ts lines 64-66): `costs[person] += receiptCosts[person]`, unguarded,
so a missing `costs[person]` yields NaN and creates the key. -/
def accumulatePerson (receiptCosts : List (String × ℚ))
    (costs : List (String × Option ℚ)) (person : String) :
    List (String × Option ℚ) :=
  recordSet costs person
    (jsAdd (slotValue (recordGet costs person)) (recordGet receiptCosts person))

/-- The `paid_by` step of `calculateCombinedCosts` (utils.ts lines 68-70):
`if (receipt.paid_by && costs[receipt.paid_by] !== undefined)
   costs[receipt.paid_by] -= calculateReceiptTotal(receipt)`.
A `null` or empty-string `paid_by` is falsy and skips the subtraction, as
does a payer without a key. -/
def applyPaidBy (costs : List (String × Option ℚ)) (receipt : Receipt) :
    List (String × Option ℚ) :=
  match receipt.paid_by with
  | some payer =>
      if payer ≠ "" ∧ (recordGet costs payer).isSome then
        recordSet costs payer
          (jsSub (slotValue (recordGet costs payer))
            (some (calculateReceiptTotal receipt)))
      else costs
  | none => costs

/-- Body of the per-receipt `forEach` of `calculateCombinedCosts`
(utils.ts lines 60-71): skip processed receipts, accumulate the receipt's
per-person costs, then apply the `paid_by` subtraction. -/
def applyReceipt (costs : List (String × Option ℚ)) (receipt : Receipt) :
    List (String × Option ℚ) :=
  if receipt.processed then costs
  else
    applyPaidBy
      (receipt.people.foldl
        (accumulatePerson (calculateReceiptCosts receipt receipt.people)) costs)
      receipt

/-- `calculateCombinedCosts` from `src/frontend/src/lib/utils.ts`
lines 56-74. -/
def calculateCombinedCosts (group : Group) : List (String × Option ℚ) :=
  let costs := group.people.foldl (fun c person => recordSet c person (some (0 : ℚ))) []
  group.receipts.foldl applyReceipt costs

/-- Modelled from the spec: the per-entry charging rule of §4.1, stated
directly from the spec's words, to be compared against
`calculateReceiptCosts`: an entry with an empty assignment set splits its
taxed price evenly across all of `people`; a non-empty assignment set splits
it evenly across the assigned names (the divisor counting the whole assigned
set), each assigned name present in `people` receiving one share. -/
def specEntryCharge (people : List String) (entry : ReceiptEntry) (p : String) : ℚ :=
  let taxed := if entry.taxable then entry.price * (1 + TAX_RATE) else entry.price
  if entry.assigned_to = [] then taxed / (people.length : ℚ)
  else if p ∈ entry.assigned_to then taxed / (entry.assigned_to.length : ℚ)
  else 0

/-- Net contribution of one receipt to person `p`'s combined balance, as the
spec describes it (§4.4 of the claim set): nothing when processed, otherwise
`p`'s share of the receipt's costs minus the full total when `p` is the
payer. -/
def receiptContribution (p : String) (r : Receipt) : ℚ :=
  if r.processed then 0
  else
    (recordGet (calculateReceiptCosts r r.people) p).getD 0
      - (if r.paid_by = some p then calculateReceiptTotal r else 0)

/-- Invariant of the combined-balance record: exactly the people of the
group hold a key, and every held value is a finite number (no NaN). -/
def FiniteBalances (people : List String) (c : List (String × Option ℚ)) : Prop :=
  ∀ s, (s ∈ people → ∃ q : ℚ, recordGet c s = some (some q)) ∧
    (s ∉ people → recordGet c s = none)

/-!
## Optimistic assignment toggle (`+page.svelte` `updateAssignment`)
-/

/-- The new assignment list computed by `updateAssignment`
(`+page.svelte`): push when checking and absent, filter out when
unchecking, unchanged otherwise. -/
def computeNewAssignedTo (assigned_to : List String) (person : String)
    (assigned : Bool) : List String :=
  if assigned && !(assigned_to.contains person) then assigned_to ++ [person]
  else if !assigned then assigned_to.filter (fun p => p ≠ person)
  else assigned_to

/-- `receipt.entries.find(e => e.id === entryId)` followed by mutating that
entry's `assigned_to`: the first entry with the given id is updated. -/
def setEntryAssignedTo : List ReceiptEntry → Nat → List String → List ReceiptEntry
  | [], _, _ => []
  | e :: rest, eid, newA =>
      if e.id = eid then { e with assigned_to := newA } :: rest
      else e :: setEntryAssignedTo rest eid newA

/-- `group.receipts.find(r => r.id === receiptId)` followed by mutating the
found receipt's matching entry. -/
def setReceiptEntryAssignedTo : List Receipt → Nat → Nat → List String → List Receipt
  | [], _, _, _ => []
  | r :: rest, rid, eid, newA =>
      if r.id = rid then { r with entries := setEntryAssignedTo r.entries eid newA } :: rest
      else r :: setReceiptEntryAssignedTo rest rid eid newA

/-- `group.receipts.findIndex(r => r.id === id)` followed by
`group.receipts[receiptIndex] = updatedReceipt` (the body of
`refreshCurrentReceipt`): the first receipt with the given id is replaced
wholesale; no match leaves the list unchanged. -/
def replaceReceipt : List Receipt → Nat → Receipt → List Receipt
  | [], _, _ => []
  | r :: rest, rid, updated =>
      if r.id = rid then updated :: rest else r :: replaceReceipt rest rid updated

def findReceipt (receipts : List Receipt) (rid : Nat) : Option Receipt :=
  receipts.find? (fun r => r.id == rid)

def findEntry (entries : List ReceiptEntry) (eid : Nat) : Option ReceiptEntry :=
  entries.find? (fun e => e.id == eid)

/-- The two pieces of page state that `updateAssignment` touches:
the group snapshot and the `error` message string (empty = no error shown). -/
structure PageState where
  group : Group
  error : String
deriving DecidableEq, Repr

/-- `refreshCurrentReceipt` (`+page.svelte` lines 140-164) when the fetch
succeeds: its body first runs `error = ''` and then replaces the current
receipt (identified by `currentReceipt.id`) with the canonical receipt
fetched from the server.  Note the unconditional `error = ''`: it executes
synchronously before the fetch suspends, so it also erases any error message
assigned by a caller immediately before the call. -/
def refreshCurrentReceiptOk (s : PageState) (currentReceiptId : Nat)
    (canonical : Receipt) : PageState :=
  { group := { s.group with
      receipts := replaceReceipt s.group.receipts currentReceiptId canonical },
    error := "" }

/-- The failure path of `updateAssignment` (`+page.svelte` lines 296-330):
the receipt and entry are looked up (early return when absent), the new
assignment list is written optimistically, the backing PATCH fails, the
`catch` block assigns `error = handleError(...)` (the `errMsg` argument),
and then awaits `refreshCurrentReceiptOk` with the canonical receipt the
server returns for the current receipt id. -/
def updateAssignmentFailed (s : PageState) (currentReceiptId receiptId entryId : Nat)
    (person : String) (assigned : Bool) (canonical : Receipt) (errMsg : String) :
    PageState :=
  match findReceipt s.group.receipts receiptId with
  | none => s
  | some receipt =>
    match findEntry receipt.entries entryId with
    | none => s
    | some entry =>
        let newA := computeNewAssignedTo entry.assigned_to person assigned
        let optimistic : PageState :=
          { s with group := { s.group with
              receipts := setReceiptEntryAssignedTo s.group.receipts receiptId entryId newA } }
        let afterCatch : PageState := { optimistic with error := errMsg }
        refreshCurrentReceiptOk afterCatch currentReceiptId canonical

/-!
## PollingStore (`src/frontend/src/lib/stores/polling.svelte.ts`)
-/

/-- The version-comparison state of `PollingStore`: `lastVersion` is `null`
right after `start`. -/
structure PollingStore where
  lastVersion : Option String
deriving DecidableEq, Repr

/-- `PollingStore.checkForUpdates` (polling.svelte.ts lines 117-149) on a
successful version fetch returning `updated_at`; the returned `Bool` records
whether `onGroupChanged` was invoked. -/
def PollingStore.checkForUpdates (s : PollingStore) (updated_at : String) :
    PollingStore × Bool :=
  match s.lastVersion with
  | none => ({ lastVersion := some updated_at }, false)
  | some last =>
      if updated_at ≠ last then ({ lastVersion := some updated_at }, true)
      else (s, false)

/-- `PollingStore.updateVersion` (polling.svelte.ts lines 155-157). -/
def PollingStore.updateVersion (_s : PollingStore) (version : String) : PollingStore :=
  { lastVersion := some version }

/-!
## RealtimeStore throttle (`src/frontend/src/lib/stores/realtime.svelte.ts`)
-/

/-- The throttle state of `RealtimeStore`: `lastUpdateTime` starts at 0;
times are `Date.now()` milliseconds, modelled as integers. -/
structure RealtimeStore where
  lastUpdateTime : ℤ
deriving DecidableEq, Repr

/-- `UPDATE_THROTTLE` (realtime.svelte.ts line 22). -/
def RealtimeStore.UPDATE_THROTTLE : ℤ := 100

/-- `RealtimeStore.handleMessage` (realtime.svelte.ts lines 173-206) as it
affects the throttle state, dispatching on `message.type`; `now` is the
`Date.now()` read in the `refresh_group` case, and the returned `Bool`
records whether `onRefreshGroup` was invoked.  The other message types
(`connected`, `pong`, `error`, unknown) only log and never refresh. -/
def RealtimeStore.handleMessage (s : RealtimeStore) (msgType : String) (now : ℤ) :
    RealtimeStore × Bool :=
  if msgType = "refresh_group" then
    if now - s.lastUpdateTime > RealtimeStore.UPDATE_THROTTLE then
      ({ lastUpdateTime := now }, true)
    else (s, false)
  else (s, false)

/-!
## RealtimeReceiptManager reconnection (`src/frontend/src/lib/websocket.ts`)
-/

/-- What the `onclose` handler does besides bookkeeping. -/
inductive CloseAction where
  | scheduleReconnect (attempt : Nat) (delayMs : Nat)
  | terminalError
  | noAction
deriving DecidableEq, Repr

/-- `maxReconnectAttempts` (websocket.ts line 13). -/
def RealtimeReceiptManager.maxReconnectAttempts : Nat := 5

/-- `reconnectDelay` (websocket.ts line 14). -/
def RealtimeReceiptManager.reconnectDelay : Nat := 1000

/-- `RealtimeReceiptManager.reconnect` (websocket.ts lines 114-130): bumps
the attempt counter and schedules a reconnect after
`reconnectDelay * 2 ** (attempts - 1)` ms, or does nothing when the attempt
budget is exhausted. -/
def RealtimeReceiptManager.reconnect (reconnectAttempts : Nat) : Nat × CloseAction :=
  if reconnectAttempts ≥ RealtimeReceiptManager.maxReconnectAttempts then
    (reconnectAttempts, CloseAction.noAction)
  else
    let attempts := reconnectAttempts + 1
    (attempts,
      CloseAction.scheduleReconnect attempts
        (RealtimeReceiptManager.reconnectDelay * 2 ^ (attempts - 1)))

/-- The reconnect decision of the `onclose` handler (websocket.ts lines
74-90): reconnect unless the close was clean (code 1000) while attempts
remain, otherwise report the terminal "Max reconnection attempts reached"
rejection once the budget is exhausted. -/
def RealtimeReceiptManager.handleClose (reconnectAttempts code : Nat) :
    Nat × CloseAction :=
  if code ≠ 1000 ∧ reconnectAttempts < RealtimeReceiptManager.maxReconnectAttempts then
    RealtimeReceiptManager.reconnect reconnectAttempts
  else if reconnectAttempts ≥ RealtimeReceiptManager.maxReconnectAttempts then
    (reconnectAttempts, CloseAction.terminalError)
  else
    (reconnectAttempts, CloseAction.noAction)

/-!
## Concrete inputs used by counterexamples and witnesses
-/

/-- A receipt whose only entry is assigned to a name (`"C"`) absent from the
people list it will be evaluated against. -/
def strayReceipt : Receipt :=
  { id := 1, processed := false, name := "stray", paid_by := none,
    people := ["A"],
    entries := [{ id := 1, name := "x", price := 10, taxable := false,
                  assigned_to := ["C"] }] }

/-- The spec's §8 scenario receipt:
entries `[{price: 10, taxable: true, assigned: []}]`. -/
def scenarioReceipt : Receipt :=
  { id := 2, processed := false, name := "scenario", paid_by := none,
    people := ["A", "B"],
    entries := [{ id := 1, name := "item", price := 10, taxable := true,
                  assigned_to := [] }] }

/-- A well-formed receipt used to witness conservation: one entry assigned
to `"A"`, one unassigned. -/
def plainReceipt : Receipt :=
  { id := 3, processed := false, name := "plain", paid_by := none,
    people := ["A", "B"],
    entries := [{ id := 1, name := "a", price := 20, taxable := false,
                  assigned_to := ["A"] },
                { id := 2, name := "b", price := 7, taxable := true,
                  assigned_to := [] }] }

/-- A two-receipt group (one unprocessed and paid by `"A"`, one processed
with a payer) used to witness the combined-costs characterisation. -/
def sampleGroup : Group :=
  { name := "g", people := ["A", "B"],
    receipts :=
      [{ id := 10, processed := false, name := "r1", paid_by := some "A",
         people := ["A", "B"],
         entries := [{ id := 1, name := "a", price := 20, taxable := false,
                       assigned_to := ["A"] },
                     { id := 2, name := "b", price := 7, taxable := true,
                       assigned_to := [] }] },
       { id := 11, processed := true, name := "r2", paid_by := some "B",
         people := ["A", "B"],
         entries := [{ id := 3, name := "c", price := 5, taxable := false,
                       assigned_to := [] }] }] }

/-- An unprocessed receipt registering a person (`"C"`) who will be missing
from its group's people list. -/
def strayGroupReceipt : Receipt :=
  { id := 20, processed := false, name := "r", paid_by := none,
    people := ["A", "C"],
    entries := [{ id := 1, name := "x", price := 10, taxable := false,
                  assigned_to := [] }] }

/-- A group whose single unprocessed receipt registers a person (`"C"`)
missing from the group's people: the subset precondition of the combined
balance is violated. -/
def strayGroup : Group :=
  { name := "s", people := ["A"], receipts := [strayGroupReceipt] }

/-- Page state used to evaluate the `updateAssignment` failure path: one
receipt (id 1) with one unassigned entry (id 1), no pending error. -/
def bugPage : PageState :=
  { group :=
      { name := "g", people := ["A", "B"],
        receipts :=
          [{ id := 1, processed := false, name := "r", paid_by := none,
             people := ["A", "B"],
             entries := [{ id := 1, name := "x", price := 10, taxable := false,
                           assigned_to := [] }] }] },
    error := "" }

/-- The canonical receipt the server returns after the failed PATCH: the
mutation was rejected, so it is exactly the pre-toggle receipt of
`bugPage`. -/
def bugCanonicalReceipt : Receipt :=
  { id := 1, processed := false, name := "r", paid_by := none,
    people := ["A", "B"],
    entries := [{ id := 1, name := "x", price := 10, taxable := false,
                  assigned_to := [] }] }

/-!
## Record lemmas
-/

theorem recordGet_recordSet {α : Type} (r : List (String × α)) (k p : String) (v : α) :
    recordGet (recordSet r k v) p = if p = k then some v else recordGet r p := by
  induction r with
  | nil =>
      by_cases h : p = k
      · simp [recordSet, recordGet, h]
      · simp [recordSet, recordGet, h, Ne.symm h]
  | cons hd tl ih =>
      obtain ⟨k', v'⟩ := hd
      by_cases hk : k' = k
      · subst hk
        simp only [recordSet, if_pos rfl, recordGet]
        by_cases hp : p = k'
        · simp [hp]
        · simp [hp, Ne.symm hp]
      · simp only [recordSet, if_neg hk, recordGet, ih]
        by_cases hp : k' = p
        · have hpk : ¬p = k := fun h => hk (hp.trans h)
          simp [hp, hpk]
        · simp [hp]

theorem recordGet_recordAdd (c : List (String × ℚ)) (k p : String) (v : ℚ) :
    recordGet (recordAdd c k v) p =
      if p = k then (recordGet c k).map (fun x => x + v) else recordGet c p := by
  unfold recordAdd
  cases h : recordGet c k with
  | none =>
      simp only [Option.isSome_none, Bool.false_eq_true, if_false]
      by_cases hpk : p = k
      · simp [hpk, h]
      · simp [hpk]
  | some old =>
      simp only [Option.isSome_some, if_true, Option.getD_some]
      rw [recordGet_recordSet]
      by_cases hpk : p = k
      · simp [hpk, h]
      · simp [hpk]

theorem recordGet_foldAdd_isSome (l : List String) (v : ℚ) (p : String) :
    ∀ c : List (String × ℚ),
      (recordGet (l.foldl (fun c q => recordAdd c q v) c) p).isSome =
        (recordGet c p).isSome := by
  induction l with
  | nil => intro c; simp
  | cons q rest ih =>
      intro c
      rw [List.foldl_cons, ih]
      rw [recordGet_recordAdd]
      by_cases hpq : p = q <;> simp [hpq]

theorem recordGet_foldSet {α : Type} (l : List String) (v₀ : α) (p : String) :
    ∀ c : List (String × α),
      recordGet (l.foldl (fun c q => recordSet c q v₀) c) p =
        if p ∈ l then some v₀ else recordGet c p := by
  induction l with
  | nil => intro c; simp
  | cons q rest ih =>
      intro c
      rw [List.foldl_cons, ih]
      by_cases hr : p ∈ rest
      · simp [hr]
      · rw [recordGet_recordSet]
        by_cases hpq : p = q <;> simp [hr, hpq]

theorem recordGet_foldAdd_of_not_mem (l : List String) (v : ℚ) (p : String)
    (hp : p ∉ l) :
    ∀ c : List (String × ℚ),
      recordGet (l.foldl (fun c q => recordAdd c q v) c) p = recordGet c p := by
  induction l with
  | nil => intro c; simp
  | cons q rest ih =>
      intro c
      have hpq : p ≠ q := fun h => hp (h ▸ List.mem_cons_self q rest)
      have hpr : p ∉ rest := fun h => hp (List.mem_cons_of_mem q h)
      rw [List.foldl_cons, ih hpr, recordGet_recordAdd, if_neg hpq]

theorem recordGet_foldAdd_of_nodup_mem (l : List String) (v : ℚ) (p : String)
    (hnd : l.Nodup) (hp : p ∈ l) (c : List (String × ℚ)) :
    recordGet (l.foldl (fun c q => recordAdd c q v) c) p =
      (recordGet c p).map (fun x => x + v) := by
  obtain ⟨s, t, rfl⟩ := List.append_of_mem hp
  have hps : p ∉ s := by
    intro hmem
    exact (List.disjoint_of_nodup_append hnd) hmem (List.mem_cons_self p t)
  have hpt : p ∉ t := by
    have := (List.nodup_append.mp hnd).2.1
    exact (List.nodup_cons.mp this).1
  rw [List.foldl_append, List.foldl_cons,
    recordGet_foldAdd_of_not_mem t v p hpt,
    recordGet_recordAdd, if_pos rfl,
    recordGet_foldAdd_of_not_mem s v p hps]

/-!
## Sum-of-values lemmas and conservation
-/

theorem sumValues_recordSet (c : List (String × ℚ)) (k : String) (v old : ℚ)
    (h : recordGet c k = some old) :
    sumValues (recordSet c k v) = sumValues c - old + v := by
  induction c with
  | nil => simp [recordGet] at h
  | cons hd tl ih =>
      obtain ⟨k', v'⟩ := hd
      by_cases hk : k' = k
      · subst hk
        have hv : v' = old := by simpa [recordGet] using h
        subst hv
        simp only [recordSet, if_true, eq_self_iff_true]
        simp only [sumValues, List.map_cons, List.sum_cons]
        ring
      · simp only [recordGet, if_neg hk] at h
        simp only [recordSet, if_neg hk, sumValues, List.map_cons, List.sum_cons]
        have := ih h
        simp only [sumValues] at this
        rw [this]
        ring

theorem sumValues_recordAdd (c : List (String × ℚ)) (k : String) (v old : ℚ)
    (h : recordGet c k = some old) :
    sumValues (recordAdd c k v) = sumValues c + v := by
  unfold recordAdd
  rw [h]
  simp only [Option.isSome_some, if_true, Option.getD_some]
  rw [sumValues_recordSet c k (old + v) old h]
  ring

theorem sumValues_foldAdd (v : ℚ) :
    ∀ (l : List String) (c : List (String × ℚ)),
      (∀ q ∈ l, (recordGet c q).isSome) →
      sumValues (l.foldl (fun c q => recordAdd c q v) c) =
        sumValues c + (l.length : ℚ) * v := by
  intro l
  induction l with
  | nil => intro c _; simp
  | cons q rest ih =>
      intro c hkeys
      have hq : (recordGet c q).isSome := hkeys q (List.mem_cons_self q rest)
      obtain ⟨old, hold⟩ := Option.isSome_iff_exists.mp hq
      have hrest : ∀ q' ∈ rest, (recordGet (recordAdd c q v) q').isSome := by
        intro q' hq'
        rw [recordGet_recordAdd]
        by_cases h : q' = q
        · simp [h, hold]
        · simp only [if_neg h]
          exact hkeys q' (List.mem_cons_of_mem q hq')
      rw [List.foldl_cons, ih (recordAdd c q v) hrest,
        sumValues_recordAdd c q v old hold]
      simp only [List.length_cons]
      push_cast
      ring

theorem sumValues_applyEntry (P : List String) (c : List (String × ℚ))
    (e : ReceiptEntry) (hP : P ≠ [])
    (hkeys : ∀ q ∈ P, (recordGet c q).isSome)
    (hA : ∀ a ∈ e.assigned_to, a ∈ P) :
    sumValues (applyEntry P c e) =
      sumValues c + (if e.taxable then e.price * (1 + TAX_RATE) else e.price) := by
  unfold applyEntry
  by_cases h0 : e.assigned_to.length = 0
  · rw [if_pos h0, sumValues_foldAdd _ P c hkeys]
    have hlen : (P.length : ℚ) ≠ 0 := by
      simpa using fun h => hP (List.length_eq_zero.mp h)
    rw [mul_comm, div_mul_cancel₀ _ hlen]
  · rw [if_neg h0, sumValues_foldAdd _ e.assigned_to c
      (fun a ha => hkeys a (hA a ha))]
    have hlen : (e.assigned_to.length : ℚ) ≠ 0 := Nat.cast_ne_zero.mpr h0
    rw [mul_comm, div_mul_cancel₀ _ hlen]

theorem recordGet_applyEntry_isSome (P : List String) (c : List (String × ℚ))
    (e : ReceiptEntry) (p : String) :
    (recordGet (applyEntry P c e) p).isSome = (recordGet c p).isSome := by
  unfold applyEntry
  by_cases h0 : e.assigned_to.length = 0
  · rw [if_pos h0]
    exact recordGet_foldAdd_isSome P _ p c
  · rw [if_neg h0]
    exact recordGet_foldAdd_isSome e.assigned_to _ p c

theorem sumValues_foldEntries (P : List String) (hP : P ≠ []) :
    ∀ (es : List ReceiptEntry) (c : List (String × ℚ)),
      (∀ q ∈ P, (recordGet c q).isSome) →
      (∀ e ∈ es, ∀ a ∈ e.assigned_to, a ∈ P) →
      sumValues (es.foldl (applyEntry P) c) =
        sumValues c +
          (es.map (fun e => if e.taxable then e.price * (1 + TAX_RATE) else e.price)).sum := by
  intro es
  induction es with
  | nil => intro c _ _; simp
  | cons e rest ih =>
      intro c hkeys hA
      have hkeys' : ∀ q ∈ P, (recordGet (applyEntry P c e) q).isSome := by
        intro q hq
        rw [recordGet_applyEntry_isSome]
        exact hkeys q hq
      rw [List.foldl_cons, ih (applyEntry P c e) hkeys'
          (fun e' he' => hA e' (List.mem_cons_of_mem e he')),
        sumValues_applyEntry P c e hP hkeys (hA e (List.mem_cons_self e rest))]
      simp only [List.map_cons, List.sum_cons]
      ring

theorem foldl_add_eq_sum (f : ReceiptEntry → ℚ) :
    ∀ (l : List ReceiptEntry) (a : ℚ),
      l.foldl (fun t e => t + f e) a = a + (l.map f).sum := by
  intro l
  induction l with
  | nil => intro a; simp
  | cons e rest ih =>
      intro a
      rw [List.foldl_cons, ih (a + f e)]
      simp only [List.map_cons, List.sum_cons]
      ring

theorem calculateReceiptTotal_eq_sum (R : Receipt) :
    calculateReceiptTotal R =
      (R.entries.map (fun e => if e.taxable then e.price * (1 + TAX_RATE) else e.price)).sum := by
  unfold calculateReceiptTotal
  rw [foldl_add_eq_sum]
  ring

theorem mem_recordSet_snd {α : Type} (c : List (String × α)) (k : String) (v : α) :
    ∀ x ∈ recordSet c k v, x.2 = v ∨ x ∈ c := by
  induction c with
  | nil =>
      intro x hx
      simp only [recordSet, List.mem_singleton] at hx
      subst hx
      exact Or.inl rfl
  | cons hd tl ih =>
      obtain ⟨k', v'⟩ := hd
      intro x hx
      by_cases hk : k' = k
      · simp only [recordSet] at hx
        rw [if_pos hk] at hx
        rcases List.mem_cons.mp hx with h | h
        · subst h; exact Or.inl rfl
        · exact Or.inr (List.mem_cons_of_mem _ h)
      · simp only [recordSet] at hx
        rw [if_neg hk] at hx
        rcases List.mem_cons.mp hx with h | h
        · exact Or.inr (h ▸ List.mem_cons_self _ _)
        · rcases ih x h with h2 | h2
          · exact Or.inl h2
          · exact Or.inr (List.mem_cons_of_mem _ h2)

theorem foldSet_zero_values (l : List String) :
    ∀ c : List (String × ℚ), (∀ x ∈ c, x.2 = 0) →
      ∀ x ∈ l.foldl (fun c q => recordSet c q (0 : ℚ)) c, x.2 = 0 := by
  induction l with
  | nil => intro c hc; simpa using hc
  | cons q rest ih =>
      intro c hc
      refine ih (recordSet c q 0) ?_
      intro x hx
      rcases mem_recordSet_snd c q 0 x hx with h | h
      · exact h
      · exact hc x h

theorem sumValues_init_zero (P : List String) :
    sumValues (P.foldl (fun c q => recordSet c q (0 : ℚ)) []) = 0 := by
  apply List.sum_eq_zero
  intro x hx
  simp only [List.mem_map] at hx
  obtain ⟨y, hy, rfl⟩ := hx
  exact foldSet_zero_values P [] (by simp) y hy

/-- Exact conservation: when every assigned name of every entry occurs in
`people` (and `people` is non-empty) the per-person costs sum to the receipt
total, exactly. -/
theorem sum_costs_eq_total (R : Receipt) (P : List String) (hP : P ≠ [])
    (hA : ∀ e ∈ R.entries, ∀ a ∈ e.assigned_to, a ∈ P) :
    sumValues (calculateReceiptCosts R P) = calculateReceiptTotal R := by
  unfold calculateReceiptCosts
  have hkeys : ∀ q ∈ P,
      (recordGet (P.foldl (fun c person => recordSet c person (0 : ℚ)) []) q).isSome := by
    intro q hq
    rw [recordGet_foldSet]
    simp [hq]
  rw [sumValues_foldEntries P hP R.entries _ hkeys hA, sumValues_init_zero,
    calculateReceiptTotal_eq_sum]
  ring

/-!
## Per-person characterisation of `calculateReceiptCosts`
-/

theorem recordGet_foldEntries_isSome (P : List String) (p : String) :
    ∀ (es : List ReceiptEntry) (c : List (String × ℚ)),
      (recordGet (es.foldl (applyEntry P) c) p).isSome = (recordGet c p).isSome := by
  intro es
  induction es with
  | nil => intro c; simp
  | cons e rest ih =>
      intro c
      rw [List.foldl_cons, ih (applyEntry P c e), recordGet_applyEntry_isSome]

/-- The keys of `calculateReceiptCosts receipt people` are exactly `people`:
helper form used throughout. -/
theorem recordGet_costs_isSome (R : Receipt) (P : List String) (s : String) :
    (recordGet (calculateReceiptCosts R P) s).isSome = true ↔ s ∈ P := by
  unfold calculateReceiptCosts
  rw [recordGet_foldEntries_isSome, recordGet_foldSet]
  by_cases h : s ∈ P <;> simp [h, recordGet]

theorem recordGet_applyEntry (P : List String) (c : List (String × ℚ))
    (e : ReceiptEntry) (p : String) (hP : P.Nodup) (hA : e.assigned_to.Nodup)
    (hp : p ∈ P) :
    recordGet (applyEntry P c e) p =
      (recordGet c p).map (fun x => x + specEntryCharge P e p) := by
  unfold applyEntry specEntryCharge
  by_cases h0 : e.assigned_to.length = 0
  · have hnil : e.assigned_to = [] := List.length_eq_zero.mp h0
    rw [if_pos h0, if_pos hnil]
    exact recordGet_foldAdd_of_nodup_mem P _ p hP hp c
  · have hnil : ¬e.assigned_to = [] := fun h => h0 (by simp [h])
    rw [if_neg h0, if_neg hnil]
    by_cases hmem : p ∈ e.assigned_to
    · rw [if_pos hmem]
      exact recordGet_foldAdd_of_nodup_mem e.assigned_to _ p hA hmem c
    · rw [if_neg hmem, recordGet_foldAdd_of_not_mem e.assigned_to _ p hmem c]
      cases recordGet c p <;> simp

theorem recordGet_foldEntries (P : List String) (p : String) (hP : P.Nodup)
    (hp : p ∈ P) :
    ∀ (es : List ReceiptEntry) (c : List (String × ℚ)),
      (∀ e ∈ es, e.assigned_to.Nodup) →
      recordGet (es.foldl (applyEntry P) c) p =
        (recordGet c p).map
          (fun x => x + (es.map (fun e => specEntryCharge P e p)).sum) := by
  intro es
  induction es with
  | nil =>
      intro c _
      simp only [List.foldl_nil, List.map_nil, List.sum_nil]
      cases recordGet c p <;> simp
  | cons e rest ih =>
      intro c hA
      rw [List.foldl_cons,
        ih (applyEntry P c e) (fun e' he' => hA e' (List.mem_cons_of_mem e he')),
        recordGet_applyEntry P c e p hP (hA e (List.mem_cons_self e rest)) hp]
      cases recordGet c p with
      | none => simp
      | some x =>
          simp only [Option.map_some', List.map_cons, List.sum_cons, Option.some.injEq]
          ring

/-- Helper: the value `calculateReceiptCosts` assigns to a person of `P`. -/
theorem recordGet_costs (R : Receipt) (P : List String) (p : String)
    (hP : P.Nodup) (hA : ∀ e ∈ R.entries, e.assigned_to.Nodup) (hp : p ∈ P) :
    recordGet (calculateReceiptCosts R P) p =
      some ((R.entries.map (fun e => specEntryCharge P e p)).sum) := by
  unfold calculateReceiptCosts
  rw [recordGet_foldEntries P p hP hp R.entries _ hA, recordGet_foldSet]
  simp [hp]

/-!
## Empty people list
-/

theorem foldAdd_nil (v : ℚ) :
    ∀ l : List String, l.foldl (fun c q => recordAdd c q v) [] = [] := by
  intro l
  induction l with
  | nil => rfl
  | cons q rest ih => simpa [recordAdd, recordGet] using ih

theorem applyEntry_nil_people (e : ReceiptEntry) : applyEntry [] [] e = [] := by
  unfold applyEntry
  by_cases h0 : e.assigned_to.length = 0
  · rw [if_pos h0]; rfl
  · rw [if_neg h0]
    exact foldAdd_nil _ e.assigned_to

theorem foldEntries_nil_people :
    ∀ es : List ReceiptEntry, es.foldl (applyEntry []) [] = [] := by
  intro es
  induction es with
  | nil => rfl
  | cons e rest ih => simpa [applyEntry_nil_people] using ih

/-!
## Combined-costs lemmas
-/

theorem recordGet_accFold_of_not_mem (rc : List (String × ℚ)) (p : String) :
    ∀ (l : List String) (c : List (String × Option ℚ)), p ∉ l →
      recordGet (l.foldl (accumulatePerson rc) c) p = recordGet c p := by
  intro l
  induction l with
  | nil => intro c _; rfl
  | cons q rest ih =>
      intro c hp
      have hpq : p ≠ q := fun h => hp (h ▸ List.mem_cons_self q rest)
      have hpr : p ∉ rest := fun h => hp (List.mem_cons_of_mem q h)
      rw [List.foldl_cons, ih _ hpr, accumulatePerson, recordGet_recordSet,
        if_neg hpq]

theorem recordGet_accFold_of_nodup_mem (rc : List (String × ℚ)) (p : String)
    (l : List String) (hnd : l.Nodup) (hp : p ∈ l)
    (c : List (String × Option ℚ)) :
    recordGet (l.foldl (accumulatePerson rc) c) p =
      some (jsAdd (slotValue (recordGet c p)) (recordGet rc p)) := by
  obtain ⟨s, t, rfl⟩ := List.append_of_mem hp
  have hps : p ∉ s := by
    intro hmem
    exact (List.disjoint_of_nodup_append hnd) hmem (List.mem_cons_self p t)
  have hpt : p ∉ t := by
    have := (List.nodup_append.mp hnd).2.1
    exact (List.nodup_cons.mp this).1
  rw [List.foldl_append, List.foldl_cons,
    recordGet_accFold_of_not_mem rc p t _ hpt, accumulatePerson,
    recordGet_recordSet, if_pos rfl,
    recordGet_accFold_of_not_mem rc p s c hps]

theorem recordGet_applyPaidBy (c : List (String × Option ℚ)) (r : Receipt)
    (p : String) (w : ℚ) (hpb : r.paid_by ≠ some "")
    (h : recordGet c p = some (some w)) :
    recordGet (applyPaidBy c r) p =
      some (some (w - (if r.paid_by = some p then calculateReceiptTotal r else 0))) := by
  cases hpay : r.paid_by with
  | none => simp [applyPaidBy, hpay, h]
  | some payer =>
      by_cases hpp : payer = p
      · subst hpp
        have hne : payer ≠ "" := fun h' => hpb (h' ▸ hpay)
        have hs : (recordGet c payer).isSome = true := by rw [h]; rfl
        simp only [applyPaidBy, hpay]
        rw [if_pos ⟨hne, hs⟩, recordGet_recordSet, if_pos rfl, h]
        simp [jsSub, slotValue]
      · have hppv : ¬p = payer := fun h' => hpp h'.symm
        by_cases hcond : payer ≠ "" ∧ (recordGet c payer).isSome = true
        · simp only [applyPaidBy, hpay]
          rw [if_pos hcond, recordGet_recordSet, if_neg hppv, h]
          simp [hpp]
        · simp only [applyPaidBy, hpay]
          rw [if_neg hcond, h]
          simp [hpp]

theorem recordGet_applyReceipt (c : List (String × Option ℚ)) (r : Receipt)
    (p : String) (v : ℚ) (hnd : r.people.Nodup) (hpb : r.paid_by ≠ some "")
    (h : recordGet c p = some (some v)) :
    recordGet (applyReceipt c r) p = some (some (v + receiptContribution p r)) := by
  unfold applyReceipt receiptContribution
  by_cases hproc : r.processed
  · rw [if_pos hproc, if_pos hproc, h, add_zero]
  · rw [if_neg hproc, if_neg hproc]
    have h2 : recordGet
        (r.people.foldl (accumulatePerson (calculateReceiptCosts r r.people)) c) p =
        some (some (v + (recordGet (calculateReceiptCosts r r.people) p).getD 0)) := by
      by_cases hmem : p ∈ r.people
      · rw [recordGet_accFold_of_nodup_mem _ p r.people hnd hmem c, h]
        have hsome : (recordGet (calculateReceiptCosts r r.people) p).isSome = true :=
          (recordGet_costs_isSome r r.people p).mpr hmem
        obtain ⟨q, hq⟩ := Option.isSome_iff_exists.mp hsome
        rw [hq]
        simp [jsAdd, slotValue]
      · rw [recordGet_accFold_of_not_mem _ p r.people c hmem, h]
        have hnone : recordGet (calculateReceiptCosts r r.people) p = none := by
          cases hrc : recordGet (calculateReceiptCosts r r.people) p with
          | none => rfl
          | some q =>
              exact absurd ((recordGet_costs_isSome r r.people p).mp (by rw [hrc]; rfl))
                hmem
        rw [hnone]
        simp
    rw [recordGet_applyPaidBy _ r p _ hpb h2]
    ring_nf

theorem recordGet_foldReceipts (p : String) :
    ∀ (rs : List Receipt) (c : List (String × Option ℚ)) (v : ℚ),
      (∀ r ∈ rs, r.people.Nodup) → (∀ r ∈ rs, r.paid_by ≠ some "") →
      recordGet c p = some (some v) →
      recordGet (rs.foldl applyReceipt c) p =
        some (some (v + (rs.map (receiptContribution p)).sum)) := by
  intro rs
  induction rs with
  | nil => intro c v _ _ h; simpa using h
  | cons r rest ih =>
      intro c v hnd hpb h
      have hstep := recordGet_applyReceipt c r p v
        (hnd r (List.mem_cons_self r rest)) (hpb r (List.mem_cons_self r rest)) h
      rw [List.foldl_cons,
        ih (applyReceipt c r) (v + receiptContribution p r)
          (fun r' hr' => hnd r' (List.mem_cons_of_mem r hr'))
          (fun r' hr' => hpb r' (List.mem_cons_of_mem r hr')) hstep,
        List.map_cons, List.sum_cons]
      rw [add_assoc]

/-!
## Well-formed combined balances (finite values, fixed key set)
-/

theorem finiteBalances_recordSet (people : List String)
    (c : List (String × Option ℚ)) (q : String) (w : ℚ) (hq : q ∈ people)
    (h : FiniteBalances people c) :
    FiniteBalances people (recordSet c q (some w)) := by
  intro s
  constructor
  · intro hs
    rw [recordGet_recordSet]
    by_cases hsq : s = q
    · exact ⟨w, by rw [if_pos hsq]⟩
    · rw [if_neg hsq]
      exact (h s).1 hs
  · intro hs
    have hsq : ¬s = q := fun h' => hs (h' ▸ hq)
    rw [recordGet_recordSet, if_neg hsq]
    exact (h s).2 hs

theorem finiteBalances_accFold (people : List String) (rc : List (String × ℚ)) :
    ∀ (l : List String) (c : List (String × Option ℚ)),
      (∀ q ∈ l, q ∈ people) → (∀ q ∈ l, (recordGet rc q).isSome = true) →
      FiniteBalances people c →
      FiniteBalances people (l.foldl (accumulatePerson rc) c) := by
  intro l
  induction l with
  | nil => intro c _ _ h; exact h
  | cons q rest ih =>
      intro c hsub hrc h
      have hq : q ∈ people := hsub q (List.mem_cons_self q rest)
      obtain ⟨w, hw⟩ := (h q).1 hq
      obtain ⟨x, hx⟩ := Option.isSome_iff_exists.mp (hrc q (List.mem_cons_self q rest))
      rw [List.foldl_cons]
      refine ih (accumulatePerson rc c q)
        (fun q' hq' => hsub q' (List.mem_cons_of_mem q hq'))
        (fun q' hq' => hrc q' (List.mem_cons_of_mem q hq')) ?_
      have : accumulatePerson rc c q = recordSet c q (some (w + x)) := by
        rw [accumulatePerson, hw, hx]
        rfl
      rw [this]
      exact finiteBalances_recordSet people c q (w + x) hq h

theorem finiteBalances_applyPaidBy (people : List String)
    (c : List (String × Option ℚ)) (r : Receipt)
    (h : FiniteBalances people c) :
    FiniteBalances people (applyPaidBy c r) := by
  cases hpay : r.paid_by with
  | none => simpa [applyPaidBy, hpay] using h
  | some payer =>
      by_cases hcond : payer ≠ "" ∧ (recordGet c payer).isSome = true
      · have hmem : payer ∈ people := by
          by_contra hno
          rw [(h payer).2 hno] at hcond
          exact absurd hcond.2 (by simp)
        obtain ⟨w, hw⟩ := (h payer).1 hmem
        simp only [applyPaidBy, hpay]
        rw [if_pos hcond]
        have : jsSub (slotValue (recordGet c payer)) (some (calculateReceiptTotal r)) =
            some (w - calculateReceiptTotal r) := by
          rw [hw]
          rfl
        rw [this]
        exact finiteBalances_recordSet people c payer _ hmem h
      · simp only [applyPaidBy, hpay]
        rw [if_neg hcond]
        exact h

theorem finiteBalances_applyReceipt (people : List String)
    (c : List (String × Option ℚ)) (r : Receipt)
    (hsub : ∀ q ∈ r.people, q ∈ people)
    (h : FiniteBalances people c) :
    FiniteBalances people (applyReceipt c r) := by
  unfold applyReceipt
  by_cases hproc : r.processed
  · rw [if_pos hproc]; exact h
  · rw [if_neg hproc]
    refine finiteBalances_applyPaidBy people _ r ?_
    refine finiteBalances_accFold people _ r.people c hsub ?_ h
    intro q hq
    exact (recordGet_costs_isSome r r.people q).mpr hq

theorem finiteBalances_foldReceipts (people : List String) :
    ∀ (rs : List Receipt) (c : List (String × Option ℚ)),
      (∀ r ∈ rs, ∀ q ∈ r.people, q ∈ people) →
      FiniteBalances people c →
      FiniteBalances people (rs.foldl applyReceipt c) := by
  intro rs
  induction rs with
  | nil => intro c _ h; exact h
  | cons r rest ih =>
      intro c hsub h
      rw [List.foldl_cons]
      exact ih (applyReceipt c r)
        (fun r' hr' => hsub r' (List.mem_cons_of_mem r hr'))
        (finiteBalances_applyReceipt people c r
          (hsub r (List.mem_cons_self r rest)) h)

theorem finiteBalances_init (people : List String) :
    FiniteBalances people
      (people.foldl (fun c person => recordSet c person (some (0 : ℚ))) []) := by
  intro s
  constructor
  · intro hs
    exact ⟨0, by rw [recordGet_foldSet, if_pos hs]⟩
  · intro hs
    rw [recordGet_foldSet, if_neg hs]
    rfl

/-!
## NaN creation and propagation in `calculateCombinedCosts`
-/

theorem accFold_preserves_badSlot (rc : List (String × ℚ)) (p : String) :
    ∀ (l : List String) (c : List (String × Option ℚ)),
      slotValue (recordGet c p) = none →
      slotValue (recordGet (l.foldl (accumulatePerson rc) c) p) = none := by
  intro l
  induction l with
  | nil => intro c h; exact h
  | cons q rest ih =>
      intro c h
      rw [List.foldl_cons]
      refine ih (accumulatePerson rc c q) ?_
      rw [accumulatePerson, recordGet_recordSet]
      by_cases hpq : p = q
      · subst hpq
        rw [if_pos rfl, h]
        cases recordGet rc p <;> rfl
      · rw [if_neg hpq]
        exact h

theorem accFold_preserves_nan (rc : List (String × ℚ)) (p : String) :
    ∀ (l : List String) (c : List (String × Option ℚ)),
      recordGet c p = some none →
      recordGet (l.foldl (accumulatePerson rc) c) p = some none := by
  intro l
  induction l with
  | nil => intro c h; exact h
  | cons q rest ih =>
      intro c h
      rw [List.foldl_cons]
      refine ih (accumulatePerson rc c q) ?_
      rw [accumulatePerson, recordGet_recordSet]
      by_cases hpq : p = q
      · subst hpq
        rw [if_pos rfl, h]
        cases recordGet rc p <;> rfl
      · rw [if_neg hpq]
        exact h

theorem accFold_creates_nan (rc : List (String × ℚ)) (p : String) :
    ∀ (l : List String) (c : List (String × Option ℚ)),
      slotValue (recordGet c p) = none → p ∈ l →
      recordGet (l.foldl (accumulatePerson rc) c) p = some none := by
  intro l
  induction l with
  | nil => intro c _ hp; exact absurd hp (List.not_mem_nil p)
  | cons q rest ih =>
      intro c h hp
      rw [List.foldl_cons]
      by_cases hpq : p = q
      · subst hpq
        refine accFold_preserves_nan rc p rest (accumulatePerson rc c p) ?_
        rw [accumulatePerson, recordGet_recordSet, if_pos rfl, h]
        cases recordGet rc p <;> rfl
      · have hpr : p ∈ rest := by
          rcases List.mem_cons.mp hp with h' | h'
          · exact absurd h' hpq
          · exact h'
        refine ih (accumulatePerson rc c q) ?_ hpr
        rw [accumulatePerson, recordGet_recordSet, if_neg hpq]
        exact h

theorem applyPaidBy_preserves_badSlot (c : List (String × Option ℚ))
    (r : Receipt) (p : String) (h : slotValue (recordGet c p) = none) :
    slotValue (recordGet (applyPaidBy c r) p) = none := by
  cases hpay : r.paid_by with
  | none => simpa [applyPaidBy, hpay] using h
  | some payer =>
      by_cases hcond : payer ≠ "" ∧ (recordGet c payer).isSome = true
      · simp only [applyPaidBy, hpay]
        rw [if_pos hcond, recordGet_recordSet]
        by_cases hpp : p = payer
        · subst hpp
          rw [if_pos rfl]
          obtain ⟨w, hw⟩ := Option.isSome_iff_exists.mp hcond.2
          rw [hw] at h ⊢
          simp only [slotValue] at h
          rw [h]
          rfl
        · rw [if_neg hpp]
          exact h
      · simp only [applyPaidBy, hpay]
        rw [if_neg hcond]
        exact h

theorem applyPaidBy_preserves_nan (c : List (String × Option ℚ))
    (r : Receipt) (p : String) (h : recordGet c p = some none) :
    recordGet (applyPaidBy c r) p = some none := by
  cases hpay : r.paid_by with
  | none => simpa [applyPaidBy, hpay] using h
  | some payer =>
      by_cases hcond : payer ≠ "" ∧ (recordGet c payer).isSome = true
      · simp only [applyPaidBy, hpay]
        rw [if_pos hcond, recordGet_recordSet]
        by_cases hpp : p = payer
        · subst hpp
          rw [if_pos rfl, h]
          rfl
        · rw [if_neg hpp]
          exact h
      · simp only [applyPaidBy, hpay]
        rw [if_neg hcond]
        exact h

theorem applyReceipt_preserves_badSlot (c : List (String × Option ℚ))
    (r : Receipt) (p : String) (h : slotValue (recordGet c p) = none) :
    slotValue (recordGet (applyReceipt c r) p) = none := by
  unfold applyReceipt
  by_cases hproc : r.processed
  · rw [if_pos hproc]; exact h
  · rw [if_neg hproc]
    exact applyPaidBy_preserves_badSlot _ r p
      (accFold_preserves_badSlot _ p r.people c h)

theorem applyReceipt_preserves_nan (c : List (String × Option ℚ))
    (r : Receipt) (p : String) (h : recordGet c p = some none) :
    recordGet (applyReceipt c r) p = some none := by
  unfold applyReceipt
  by_cases hproc : r.processed
  · rw [if_pos hproc]; exact h
  · rw [if_neg hproc]
    exact applyPaidBy_preserves_nan _ r p
      (accFold_preserves_nan _ p r.people c h)

theorem applyReceipt_creates_nan (c : List (String × Option ℚ))
    (r : Receipt) (p : String) (h : slotValue (recordGet c p) = none)
    (hproc : r.processed = false) (hp : p ∈ r.people) :
    recordGet (applyReceipt c r) p = some none := by
  unfold applyReceipt
  rw [if_neg (by rw [hproc]; exact Bool.false_ne_true)]
  exact applyPaidBy_preserves_nan _ r p
    (accFold_creates_nan _ p r.people c h hp)

theorem foldReceipts_preserves_badSlot (p : String) :
    ∀ (rs : List Receipt) (c : List (String × Option ℚ)),
      slotValue (recordGet c p) = none →
      slotValue (recordGet (rs.foldl applyReceipt c) p) = none := by
  intro rs
  induction rs with
  | nil => intro c h; exact h
  | cons r rest ih =>
      intro c h
      rw [List.foldl_cons]
      exact ih (applyReceipt c r) (applyReceipt_preserves_badSlot c r p h)

theorem foldReceipts_preserves_nan (p : String) :
    ∀ (rs : List Receipt) (c : List (String × Option ℚ)),
      recordGet c p = some none →
      recordGet (rs.foldl applyReceipt c) p = some none := by
  intro rs
  induction rs with
  | nil => intro c h; exact h
  | cons r rest ih =>
      intro c h
      rw [List.foldl_cons]
      exact ih (applyReceipt c r) (applyReceipt_preserves_nan c r p h)

/-!
## Claim theorems
-/

/-- C1 (amended): for every receipt `R` and non-empty people list `P`, *if
every name in every entry's `assigned_to` list occurs in `P`*, the values of
`calculateReceiptCosts R P` sum to `calculateReceiptTotal R` to within
`1e-9` (in fact exactly).  The extra hypothesis is forced: an entry assigned
only to names outside `P` loses its share, see the counterexample. -/
theorem receiptCosts_conservation (R : Receipt) (P : List String) (hP : P ≠ [])
    (hA : ∀ e ∈ R.entries, ∀ a ∈ e.assigned_to, a ∈ P) :
    |sumValues (calculateReceiptCosts R P) - calculateReceiptTotal R| ≤
      1 / 1000000000 := by
  rw [sum_costs_eq_total R P hP hA, sub_self, abs_zero]
  norm_num

/-- C1 counterexample: `strayReceipt` has one entry of price 10 assigned
only to `"C"`, and the people list is the non-empty `["A"]`; the costs sum
to 0 while the receipt total is 10, so conservation fails as claimed for
arbitrary entry contents. -/
theorem receiptCosts_conservation_cex :
    (["A"] : List String) ≠ [] ∧
    ¬|sumValues (calculateReceiptCosts strayReceipt ["A"]) -
        calculateReceiptTotal strayReceipt| ≤ 1 / 1000000000 := by
  have h1 : sumValues (calculateReceiptCosts strayReceipt ["A"]) = 0 := by
    simp [calculateReceiptCosts, applyEntry, recordAdd, recordGet, recordSet,
      strayReceipt, sumValues]
  have h2 : calculateReceiptTotal strayReceipt = 10 := by
    simp [calculateReceiptTotal, strayReceipt, TAX_RATE]
  refine ⟨by simp, ?_⟩
  rw [h1, h2, zero_sub, abs_neg, abs_of_nonneg (by norm_num : (0 : ℚ) ≤ 10)]
  norm_num

/-- C1 witness: conservation at a concrete well-formed receipt. -/
theorem receiptCosts_conservation_witness :
    |sumValues (calculateReceiptCosts plainReceipt ["A", "B"]) -
        calculateReceiptTotal plainReceipt| ≤ 1 / 1000000000 :=
  receiptCosts_conservation plainReceipt ["A", "B"] (by decide) (by decide)

/-- C2: for a well-formed group (each receipt's people list duplicate-free,
no empty-string payer), the combined balance of every group person `p` is
the sum over receipts of: nothing when `processed`, otherwise `p`'s share of
`calculateReceiptCosts receipt receipt.people` minus the full
`calculateReceiptTotal` exactly when `p` is the receipt's `paid_by`.  In
particular every group person starts from a zero balance and processed
receipts contribute nothing even when they have a payer. -/
theorem combinedCosts_characterization (G : Group)
    (hnd : ∀ r ∈ G.receipts, r.people.Nodup)
    (hpb : ∀ r ∈ G.receipts, r.paid_by ≠ some "")
    (p : String) (hp : p ∈ G.people) :
    recordGet (calculateCombinedCosts G) p =
      some (some ((G.receipts.map (receiptContribution p)).sum)) := by
  unfold calculateCombinedCosts
  have hinit : recordGet
      (G.people.foldl (fun c person => recordSet c person (some (0 : ℚ))) []) p =
      some (some 0) := by
    rw [recordGet_foldSet, if_pos hp]
  rw [recordGet_foldReceipts p G.receipts _ 0 hnd hpb hinit, zero_add]

/-- C2 witness: the characterisation applied to `sampleGroup` (one
unprocessed receipt paid by `"A"`, one processed receipt with a payer). -/
theorem combinedCosts_characterization_witness :
    recordGet (calculateCombinedCosts sampleGroup) "A" =
      some (some ((sampleGroup.receipts.map (receiptContribution "A")).sum)) :=
  combinedCosts_characterization sampleGroup (by decide) (by decide) "A" (by decide)

/-- C3: with duplicate-free people and assignment lists, each person `p` of
`P` is charged, per entry, the spec's rule `specEntryCharge`: the taxed
price (`price * 1.07` when taxable) split over all of `P` when the
assignment set is empty, else split over the whole assignment set with only
members of `P` charged; and the spec's concrete scenario holds:
`[{price: 10, taxable: true, assigned: []}]` over `["A", "B"]` yields
`{A: 5.35, B: 5.35}` with total `10.70`. -/
theorem receiptCosts_per_person (R : Receipt) (P : List String)
    (hP : P.Nodup) (hA : ∀ e ∈ R.entries, e.assigned_to.Nodup)
    (p : String) (hp : p ∈ P) :
    recordGet (calculateReceiptCosts R P) p =
      some ((R.entries.map (fun e => specEntryCharge P e p)).sum) ∧
    calculateReceiptCosts scenarioReceipt ["A", "B"] =
      [("A", 5.35), ("B", 5.35)] ∧
    calculateReceiptTotal scenarioReceipt = 10.70 := by
  refine ⟨recordGet_costs R P p hP hA hp, ?_, ?_⟩
  · simp [calculateReceiptCosts, applyEntry, recordAdd, recordGet, recordSet,
      scenarioReceipt, TAX_RATE]
    norm_num
  · simp [calculateReceiptTotal, scenarioReceipt, TAX_RATE]
    norm_num

/-- C3 witness: the per-person rule and scenario at the scenario receipt
itself. -/
theorem receiptCosts_per_person_witness :
    recordGet (calculateReceiptCosts scenarioReceipt ["A", "B"]) "A" =
      some ((scenarioReceipt.entries.map
        (fun e => specEntryCharge ["A", "B"] e "A")).sum) ∧
    calculateReceiptCosts scenarioReceipt ["A", "B"] =
      [("A", 5.35), ("B", 5.35)] ∧
    calculateReceiptTotal scenarioReceipt = 10.70 :=
  receiptCosts_per_person scenarioReceipt ["A", "B"] (by decide) (by decide)
    "A" (by decide)

/-- C4: `calculateReceiptCosts` over an empty people list returns the empty
map for every receipt — no exception, no division-by-zero damage, no NaN
value, whatever the entries (unassigned entries and entries assigned to
outside names included). -/
theorem receiptCosts_empty_people (R : Receipt) :
    calculateReceiptCosts R [] = [] := by
  unfold calculateReceiptCosts
  exact foldEntries_nil_people R.entries

/-- C9: the key set of `calculateReceiptCosts R P` is exactly `P`: every
person of `P` holds a key and nobody else does — in particular a name
appearing only in an entry's `assigned_to` never becomes a key. -/
theorem receiptCosts_key_set (R : Receipt) (P : List String) (s : String) :
    (recordGet (calculateReceiptCosts R P) s).isSome = true ↔ s ∈ P :=
  recordGet_costs_isSome R P s

/-- C10: when every receipt person is a group person, the combined balance
map holds exactly the group people as keys and only finite (non-NaN)
values; without that precondition, any person of an unprocessed receipt who
is missing from the group's people ends with the NaN balance `some none`. -/
theorem combinedCosts_key_safety (G : Group) :
    ((∀ r ∈ G.receipts, ∀ q ∈ r.people, q ∈ G.people) →
      ∀ s, ((recordGet (calculateCombinedCosts G) s).isSome = true ↔ s ∈ G.people) ∧
        (∀ w, recordGet (calculateCombinedCosts G) s = some w → w.isSome = true)) ∧
    (∀ q r, r ∈ G.receipts → r.processed = false → q ∈ r.people →
      q ∉ G.people → recordGet (calculateCombinedCosts G) q = some none) := by
  constructor
  · intro hsub s
    have hfb : FiniteBalances G.people (calculateCombinedCosts G) := by
      unfold calculateCombinedCosts
      exact finiteBalances_foldReceipts G.people G.receipts _ hsub
        (finiteBalances_init G.people)
    refine ⟨⟨?_, ?_⟩, ?_⟩
    · intro hsome
      by_contra hno
      rw [(hfb s).2 hno] at hsome
      exact absurd hsome (by simp)
    · intro hs
      obtain ⟨q, hq⟩ := (hfb s).1 hs
      rw [hq]
      rfl
    · intro w hw
      by_cases hs : s ∈ G.people
      · obtain ⟨q, hq⟩ := (hfb s).1 hs
        rw [hq] at hw
        obtain rfl : some q = w := Option.some.inj hw
        rfl
      · rw [(hfb s).2 hs] at hw
        exact absurd hw (by simp)
  · intro q r hr hproc hqr hqG
    unfold calculateCombinedCosts
    obtain ⟨la, lb, hsplit⟩ := List.append_of_mem hr
    rw [hsplit, List.foldl_append, List.foldl_cons]
    have hinit : recordGet
        (G.people.foldl (fun c person => recordSet c person (some (0 : ℚ))) []) q =
        none := by
      rw [recordGet_foldSet, if_neg hqG]
      rfl
    have hbad : slotValue (recordGet
        (la.foldl applyReceipt
          (G.people.foldl (fun c person => recordSet c person (some (0 : ℚ))) [])) q) =
        none :=
      foldReceipts_preserves_badSlot q la _ (by rw [hinit]; rfl)
    exact foldReceipts_preserves_nan q lb _
      (applyReceipt_creates_nan _ r q hbad hproc hqr)

/-- C10 witness: in `strayGroup`, person `"C"` of the unprocessed receipt is
missing from the group people and ends with a NaN balance. -/
theorem combinedCosts_key_safety_witness :
    recordGet (calculateCombinedCosts strayGroup) "C" = some none :=
  (combinedCosts_key_safety strayGroup).2 "C" strayGroupReceipt
    (by decide) (by decide) (by decide) (by decide)

/-- C5: evaluating the failure path of `updateAssignment` at a concrete
toggle (checking `"B"` on entry 1 of receipt 1 of `bugPage`, PATCH rejected,
canonical refetch succeeding with the pre-toggle receipt): the optimistic
change is rolled back — the final snapshot is exactly the pre-toggle state
`bugPage` — but the final `error` is the empty string: the message assigned
in the `catch` block is overwritten by the `error = ''` at the top of
`refreshCurrentReceipt`, so the failure is never surfaced to the consumer,
contradicting the claim's (and spec §7's) surfacing requirement. -/
theorem updateAssignment_failure_evaluation :
    updateAssignmentFailed bugPage 1 1 1 "B" true bugCanonicalReceipt
      "Failed to update assignment: HTTP 422" = bugPage ∧
    ("Failed to update assignment: HTTP 422" : String) ≠ "" := by
  constructor
  · decide
  · decide

/-- C6: a poll notifies (`onGroupChanged`) exactly when the fetched version
differs from the last recorded one — in particular the very first successful
check only records the version and never notifies — and after
`updateVersion v` a poll fetching the same `v` does not notify. -/
theorem polling_version_notification (s : PollingStore) (v : String) :
    ((PollingStore.checkForUpdates s v).2 = true ↔
      ∃ last, s.lastVersion = some last ∧ v ≠ last) ∧
    (s.lastVersion = none →
      (PollingStore.checkForUpdates s v).2 = false ∧
      (PollingStore.checkForUpdates s v).1.lastVersion = some v) ∧
    (PollingStore.checkForUpdates (PollingStore.updateVersion s v) v).2 = false := by
  cases hlv : s.lastVersion with
  | none =>
      refine ⟨?_, fun _ => ?_, ?_⟩
      · simp [PollingStore.checkForUpdates, hlv]
      · simp [PollingStore.checkForUpdates, hlv]
      · simp [PollingStore.checkForUpdates, PollingStore.updateVersion]
  | some last =>
      refine ⟨?_, ?_, ?_⟩
      · by_cases hv : v = last
        · simp [PollingStore.checkForUpdates, hlv, hv]
        · simp [PollingStore.checkForUpdates, hlv, hv]
      · intro h
        exact absurd h (by simp)
      · simp [PollingStore.checkForUpdates, PollingStore.updateVersion]

/-- C6 witness: a freshly started store's first check records `"v1"` without
notifying, and a store that recorded `"v1"` via its own mutation does not
notify when the next poll fetches the same `"v1"`. -/
theorem polling_version_notification_witness :
    ((PollingStore.checkForUpdates { lastVersion := none } "v1").2 = false ∧
      (PollingStore.checkForUpdates { lastVersion := none } "v1").1.lastVersion =
        some "v1") ∧
    (PollingStore.checkForUpdates
      (PollingStore.updateVersion { lastVersion := none } "v1") "v1").2 = false :=
  ⟨(polling_version_notification { lastVersion := none } "v1").2.1 rfl,
    (polling_version_notification { lastVersion := none } "v1").2.2⟩

/-- C7: a close with code 1000 never schedules a reconnect; a close with any
other code while fewer than `maxReconnectAttempts` (5) attempts were made
schedules attempt `n = attempts + 1` after `1000 * 2 ^ (n - 1)` ms; once the
5-attempt budget is exhausted, a further close reports the terminal error
and schedules nothing. -/
theorem websocket_reconnect_policy (attempts code : Nat) :
    (∀ n d, (RealtimeReceiptManager.handleClose attempts 1000).2 ≠
        CloseAction.scheduleReconnect n d) ∧
    (code ≠ 1000 → attempts < RealtimeReceiptManager.maxReconnectAttempts →
      RealtimeReceiptManager.handleClose attempts code =
        (attempts + 1,
          CloseAction.scheduleReconnect (attempts + 1)
            (RealtimeReceiptManager.reconnectDelay * 2 ^ attempts))) ∧
    (code ≠ 1000 → RealtimeReceiptManager.maxReconnectAttempts ≤ attempts →
      RealtimeReceiptManager.handleClose attempts code =
        (attempts, CloseAction.terminalError)) := by
  refine ⟨?_, ?_, ?_⟩
  · intro n d
    unfold RealtimeReceiptManager.handleClose
    rw [if_neg (by simp)]
    by_cases h : attempts ≥ RealtimeReceiptManager.maxReconnectAttempts
    · rw [if_pos h]
      simp
    · rw [if_neg h]
      simp
  · intro hc hlt
    unfold RealtimeReceiptManager.handleClose RealtimeReceiptManager.reconnect
    rw [if_pos ⟨hc, hlt⟩, if_neg (by omega)]
    simp
  · intro hc hge
    unfold RealtimeReceiptManager.handleClose
    rw [if_neg (by omega), if_pos hge]

/-- C7 witness: the first unclean close (code 1006, zero attempts so far)
schedules attempt 1 after 1000 ms. -/
theorem websocket_reconnect_policy_witness :
    RealtimeReceiptManager.handleClose 0 1006 =
      (1, CloseAction.scheduleReconnect 1
        (RealtimeReceiptManager.reconnectDelay * 2 ^ 0)) :=
  (websocket_reconnect_policy 0 1006).2.1 (by decide) (by decide)

/-- C8: `UPDATE_THROTTLE` is 100 ms; a `refresh_group` message triggers
`onRefreshGroup` exactly when strictly more than 100 ms elapsed since the
last performed refresh, and a duplicate `refresh_group` arriving within the
window after a performed refresh is dropped without refreshing. -/
theorem realtime_refresh_throttle (s : RealtimeStore) (t u : ℤ) :
    RealtimeStore.UPDATE_THROTTLE = 100 ∧
    ((RealtimeStore.handleMessage s "refresh_group" t).2 = true ↔
      RealtimeStore.UPDATE_THROTTLE < t - s.lastUpdateTime) ∧
    (RealtimeStore.UPDATE_THROTTLE < t - s.lastUpdateTime →
      u - t ≤ RealtimeStore.UPDATE_THROTTLE →
      (RealtimeStore.handleMessage
        (RealtimeStore.handleMessage s "refresh_group" t).1
        "refresh_group" u).2 = false) := by
  refine ⟨rfl, ?_, ?_⟩
  · unfold RealtimeStore.handleMessage
    rw [if_pos rfl]
    by_cases h : t - s.lastUpdateTime > RealtimeStore.UPDATE_THROTTLE
    · rw [if_pos h]
      simpa using h
    · rw [if_neg h]
      simpa using h
  · intro h1 h2
    have hfst : (RealtimeStore.handleMessage s "refresh_group" t).1 =
        { lastUpdateTime := t } := by
      unfold RealtimeStore.handleMessage
      rw [if_pos rfl, if_pos h1]
    rw [hfst]
    unfold RealtimeStore.handleMessage
    rw [if_pos rfl, if_neg (not_lt.mpr h2)]

/-- C8 witness: a refresh fires at time 200 (store last refreshed at 0);
a duplicate at time 250 — only 50 ms later — is dropped. -/
theorem realtime_refresh_throttle_witness :
    (RealtimeStore.handleMessage
      (RealtimeStore.handleMessage { lastUpdateTime := 0 } "refresh_group" 200).1
      "refresh_group" 250).2 = false :=
  (realtime_refresh_throttle { lastUpdateTime := 0 } 200 250).2.2
    (by decide) (by decide)

end ReceiptHelper
